import Mathlib

/-!
Verification of the `Polynomial` core of `mav_trajectory_generation`
(`include/mav_trajectory_generation/polynomial.h`).

The embedding is a shallow one over an arbitrary linear ordered field `K`
(instantiated at `ℚ` for concrete evaluations): polynomial coefficients are
stored, as in the source, in increasing power order, and the methods of the
C++ class `Polynomial` become pure Lean functions.  Fallible operations
(the `CHECK_*` fatal preconditions) return `Option`.  The bodies of
`computeBaseCoefficients` and `findMinMax` live in `polynomial.cpp`, which
is not part of the visible sources; those two are modelled from the spec,
as their doc comments state.
-/

namespace MavTrajectoryGeneration

variable {K : Type} [LinearOrderedField K]

/-- Maximum number of coefficients for which the static basis-coefficient
matrix is evaluated (`Polynomial::kMaxN = 12`). -/
def kMaxN : ℕ := 12

/-- Modelled from the spec: `computeBaseCoefficients(N)` is declared in
`polynomial.h` but defined in `polynomial.cpp`, which is absent from the
visible sources.  Per the spec it produces an N×N table whose row `d`,
column `j` entry is the falling-factorial multiplier `j!/(j−d)!`
(= `j·(j−1)·…·(j−d+1)`) for `j ≥ d`, and `0` elsewhere.  Entries outside
the N×N table are 0 (out-of-table access is unsupported). -/
def computeBaseCoefficients (K : Type) [LinearOrderedField K] (N : ℕ) (d j : ℕ) : K :=
  if d < N ∧ j < N then
    (if d ≤ j then (Nat.descFactorial j d : K) else 0)
  else 0

/-- The shared static table `Polynomial::base_coefficients_`, computed up to
order `kMaxN` (modelled from the spec, see `computeBaseCoefficients`). -/
def base_coefficients_ (K : Type) [LinearOrderedField K] (d j : ℕ) : K :=
  computeBaseCoefficients K kMaxN d j

/-- The C++ class `Polynomial`: a number of coefficients `N_` and the
coefficient sequence `coefficients_` (increasing powers of t). -/
structure Polynomial (K : Type) where
  N_ : ℕ
  coefficients_ : List K

/-- Constructor `Polynomial(int N)`: N zero coefficients. -/
def Polynomial.mkZero (K : Type) [LinearOrderedField K] (N : ℕ) : Polynomial K :=
  ⟨N, List.replicate N 0⟩

/-- Constructor `Polynomial(int N, const Eigen::VectorXd& coeffs)`:
`CHECK_EQ(N_, coeffs.size())` is a fatal precondition, modelled as `none`. -/
def Polynomial.mkCoeffs (N : ℕ) (coeffs : List K) : Option (Polynomial K) :=
  if coeffs.length = N then some ⟨N, coeffs⟩ else none

/-- `Polynomial::setCoefficients`: replaces the coefficients;
`CHECK_EQ(N_, coeffs.size())` modelled as `none`. -/
def Polynomial.setCoefficients (p : Polynomial K) (coeffs : List K) :
    Option (Polynomial K) :=
  if coeffs.length = p.N_ then some { p with coefficients_ := coeffs } else none

/-- `Polynomial::N()`: number of coefficients. -/
def Polynomial.N (p : Polynomial K) : ℕ := p.N_

/-- `Polynomial::operator==`: compares the coefficient vectors only. -/
def Polynomial.beq [DecidableEq K] (p q : Polynomial K) : Bool :=
  decide (p.coefficients_ = q.coefficients_)

/-- `Polynomial::operator!=`. -/
def Polynomial.bne [DecidableEq K] (p q : Polynomial K) : Bool :=
  !(p.beq q)

/-- `Polynomial::getCoefficients(int derivative)`: `CHECK_LE(derivative, N_)`
modelled as `none`; for `derivative == 0` the stored coefficients; otherwise
a zero vector of length `N_` whose `head(N_ - derivative)` is
`coefficients_.tail(N_ - derivative)` (entries from index `derivative` on)
times the block `base_coefficients_(derivative, derivative .. N_-1)`. -/
def Polynomial.getCoefficients (p : Polynomial K) (derivative : ℕ) :
    Option (List K) :=
  if derivative ≤ p.N_ then
    if derivative = 0 then some p.coefficients_
    else
      some
        (List.zipWith (· * ·) (p.coefficients_.drop derivative)
            ((List.range' derivative (p.N_ - derivative)).map
              (fun j => base_coefficients_ K derivative j)) ++
          List.replicate (p.N_ - (p.N_ - derivative)) 0)
  else none

/-- `Polynomial::evaluate(double t, int derivative)` (scalar form): returns
`0.0` when `derivative ≥ N_`; otherwise the descending Horner-style loop
`acc = row[N-1]*c[N-1]; for j = N-2 .. derivative: acc = acc*t + row[j]*c[j]`
over row `derivative` of the basis table. -/
def Polynomial.evaluate (p : Polynomial K) (t : K) (derivative : ℕ) : K :=
  if p.N_ ≤ derivative then 0
  else
    (List.range' derivative (p.N_ - 1 - derivative)).reverse.foldl
      (fun acc j => acc * t + base_coefficients_ K derivative j * p.coefficients_.getD j 0)
      (base_coefficients_ K derivative (p.N_ - 1) * p.coefficients_.getD (p.N_ - 1) 0)

/-- `Polynomial::evaluate(double t, Eigen::VectorXd* result)` (vector form):
`CHECK_LE(result->size(), N_)` modelled as `none`; otherwise fills slot `i`,
for `i < M`, by the same descending loop restricted to row `i`. -/
def Polynomial.evaluateVec (p : Polynomial K) (t : K) (M : ℕ) :
    Option (List K) :=
  if p.N_ < M then none
  else
    some ((List.range M).map (fun i =>
      (List.range' i (p.N_ - 1 - i)).reverse.foldl
        (fun acc j => acc * t + base_coefficients_ K i j * p.coefficients_.getD j 0)
        (base_coefficients_ K i (p.N_ - 1) * p.coefficients_.getD (p.N_ - 1) 0)))

/-- `Polynomial::computeRoots()`: delegates to the external root solver
(`findRootsJenkinsTraub`, an external collaborator) on the stored
coefficients.  The solver is a parameter; roots are complex numbers
modelled as (real, imaginary) pairs. -/
def Polynomial.computeRoots (rootSolver : List K → List (K × K))
    (p : Polynomial K) : List (K × K) :=
  rootSolver p.coefficients_

/-- The machine epsilon of IEEE double precision,
`std::numeric_limits<double>::epsilon() = 2⁻⁵²`. -/
def doubleEpsilon (K : Type) [LinearOrderedField K] : K := 1 / 2 ^ 52

/-- `Polynomial::baseCoeffsWithTime(int N, int derivative, double t, ...)`:
`CHECK_LT(derivative, N)` modelled as `none` (`derivative ≥ 0` holds by the
`ℕ` type); zero-initializes, sets slot `derivative` to
`base_coefficients_(derivative, derivative)`, returns early when
`|t| < epsilon`, and otherwise fills slot `j` for `j = derivative+1 .. N-1`
with `base_coefficients_(derivative, j) * t_power`, with `t_power` starting
at `t` and multiplied by `t` each step. -/
def baseCoeffsWithTime (K : Type) [LinearOrderedField K] (N derivative : ℕ) (t : K) :
    Option (List K) :=
  if derivative < N then
    if |t| < doubleEpsilon K then
      some ((List.replicate N (0 : K)).set derivative
        (base_coefficients_ K derivative derivative))
    else
      some ((List.range' (derivative + 1) (N - (derivative + 1))).foldl
        (fun (st : List K × K) j =>
          (st.1.set j (base_coefficients_ K derivative j * st.2), st.2 * t))
        ((List.replicate N (0 : K)).set derivative
          (base_coefficients_ K derivative derivative), t)).1
  else none

/-- Modelled from the spec: `Polynomial::findMinMax` is declared in
`polynomial.h` but defined in `polynomial.cpp`, which is absent from the
visible sources.  Per the spec: fail when `t_1 > t_2` or the order is
negative; a supplied root is admissible when its imaginary part is within a
small tolerance of zero and its real part lies in `[t_1, t_2]`; candidates
are `{t_1, t_2}` plus the admissible real parts; the `order`-th derivative
is evaluated at every candidate; min/max are the extremal values, with
`t_min`/`t_max` the corresponding candidate times, first occurrence winning
on ties.  Result: `(t_min, t_max, min, max)`. -/
def Polynomial.findMinMax (p : Polynomial K) (t_1 t_2 : K) (order : ℤ)
    (roots_of_derivative : List (K × K)) (tol : K) :
    Option (K × K × K × K) :=
  if t_2 < t_1 ∨ order < 0 then none
  else
    let candidates := t_1 :: t_2 ::
      ((roots_of_derivative.filter
        (fun r => decide (|r.2| ≤ tol ∧ t_1 ≤ r.1 ∧ r.1 ≤ t_2))).map Prod.fst)
    let pairs := candidates.map (fun t => (t, p.evaluate t order.toNat))
    let mn := (pairs.map Prod.snd).foldl min (p.evaluate t_1 order.toNat)
    let mx := (pairs.map Prod.snd).foldl max (p.evaluate t_1 order.toNat)
    let tmin := ((pairs.find? (fun pr => decide (pr.2 = mn))).getD (t_1, mn)).1
    let tmax := ((pairs.find? (fun pr => decide (pr.2 = mx))).getD (t_1, mx)).1
    some (tmin, tmax, mn, mx)

/-! State-passing forms of the `const`-qualified query methods: each pairs
the computed result with the state of the object(s) after the call.  The
C++ bodies of these methods contain no assignment to `N_` or
`coefficients_` (they are `const`), so the after-state is the input. -/

/-- State-passing `getCoefficients`. -/
def Polynomial.getCoefficientsRun (p : Polynomial K) (derivative : ℕ) :
    Option (List K) × Polynomial K :=
  (p.getCoefficients derivative, p)

/-- State-passing scalar `evaluate`. -/
def Polynomial.evaluateRun (p : Polynomial K) (t : K) (derivative : ℕ) :
    K × Polynomial K :=
  (p.evaluate t derivative, p)

/-- State-passing vector `evaluate`. -/
def Polynomial.evaluateVecRun (p : Polynomial K) (t : K) (M : ℕ) :
    Option (List K) × Polynomial K :=
  (p.evaluateVec t M, p)

/-- State-passing `computeRoots`. -/
def Polynomial.computeRootsRun (rootSolver : List K → List (K × K))
    (p : Polynomial K) : List (K × K) × Polynomial K :=
  (p.computeRoots rootSolver, p)

/-- State-passing `findMinMax`. -/
def Polynomial.findMinMaxRun (p : Polynomial K) (t_1 t_2 : K) (order : ℤ)
    (roots_of_derivative : List (K × K)) (tol : K) :
    Option (K × K × K × K) × Polynomial K :=
  (p.findMinMax t_1 t_2 order roots_of_derivative tol, p)

/-- State-passing `N()`. -/
def Polynomial.NRun (p : Polynomial K) : ℕ × Polynomial K :=
  (p.N, p)

/-- State-passing `operator==` (both operands are `const`). -/
def Polynomial.beqRun [DecidableEq K] (p q : Polynomial K) :
    Bool × Polynomial K × Polynomial K :=
  (p.beq q, p, q)

/-- State-passing `operator!=`. -/
def Polynomial.bneRun [DecidableEq K] (p q : Polynomial K) :
    Bool × Polynomial K × Polynomial K :=
  (p.bne q, p, q)

/-! ### Helper lemmas -/

/-- The descending Horner loop of `Polynomial::evaluate` computes the sum of
`f j * t^(j-d)` over `j = d .. m`. -/
lemma horner_foldl_eq_sum_aux (f : ℕ → K) (t : K) :
    ∀ (b d : ℕ),
      (List.range' d b).reverse.foldl (fun acc j => acc * t + f j) (f (d + b)) =
        ∑ j ∈ Finset.Icc d (d + b), f j * t ^ (j - d) := by
  intro b
  induction b with
  | zero =>
    intro d
    simp
  | succ b ih =>
    intro d
    rw [List.range'_succ, List.reverse_cons, List.foldl_append]
    have hdb : d + (b + 1) = (d + 1) + b := by omega
    rw [hdb, ih (d + 1)]
    simp only [List.foldl_cons, List.foldl_nil]
    have hIoc : Finset.Icc (d + 1) (d + 1 + b) = Finset.Ioc d (d + 1 + b) :=
      Nat.Icc_succ_left d (d + 1 + b)
    have hins : insert d (Finset.Ioc d (d + 1 + b)) = Finset.Icc d (d + 1 + b) :=
      Finset.Ioc_insert_left (by omega)
    rw [← hins, Finset.sum_insert (by simp), hIoc, Finset.sum_mul]
    have hcong : ∀ j ∈ Finset.Ioc d (d + 1 + b),
        f j * t ^ (j - (d + 1)) * t = f j * t ^ (j - d) := by
      intro j hj
      have hdj : d + 1 ≤ j := (Finset.mem_Ioc.mp hj).1
      rw [mul_assoc, ← pow_succ]
      congr 2
      omega
    rw [Finset.sum_congr rfl hcong, Nat.sub_self, pow_zero, mul_one]
    ring

/-- Convenient endpoint form of `horner_foldl_eq_sum_aux`. -/
lemma horner_foldl_eq_sum (f : ℕ → K) (t : K) (d m : ℕ) (hdm : d ≤ m) :
    (List.range' d (m - d)).reverse.foldl (fun acc j => acc * t + f j) (f m) =
      ∑ j ∈ Finset.Icc d m, f j * t ^ (j - d) := by
  have h := horner_foldl_eq_sum_aux f t (m - d) d
  rw [show d + (m - d) = m from by omega] at h
  exact h

section MinMaxFold

variable {α : Type} [LinearOrder α]

lemma foldl_min_le_init (l : List α) : ∀ a : α, l.foldl min a ≤ a := by
  induction l with
  | nil => intro a; exact le_refl a
  | cons b l ih =>
    intro a
    calc l.foldl min (min a b) ≤ min a b := ih (min a b)
    _ ≤ a := min_le_left a b

lemma foldl_min_le_mem (l : List α) : ∀ a x, x ∈ l → l.foldl min a ≤ x := by
  induction l with
  | nil => intro a x hx; cases hx
  | cons b l ih =>
    intro a x hx
    rcases List.mem_cons.mp hx with hb | hl
    · rw [hb]
      calc (b :: l).foldl min a = l.foldl min (min a b) := rfl
      _ ≤ min a b := foldl_min_le_init l (min a b)
      _ ≤ b := min_le_right a b
    · exact ih (min a b) x hl

lemma foldl_min_mem (l : List α) : ∀ a, l.foldl min a = a ∨ l.foldl min a ∈ l := by
  induction l with
  | nil => intro a; exact Or.inl rfl
  | cons b l ih =>
    intro a
    rcases ih (min a b) with he | hm
    · rcases min_choice a b with hab | hab
      · exact Or.inl (by rw [List.foldl_cons, he, hab])
      · exact Or.inr (by rw [List.foldl_cons, he, hab]; exact List.mem_cons_self b l)
    · exact Or.inr (List.mem_cons_of_mem b hm)

lemma foldl_max_ge_init (l : List α) : ∀ a : α, a ≤ l.foldl max a := by
  induction l with
  | nil => intro a; exact le_refl a
  | cons b l ih =>
    intro a
    calc a ≤ max a b := le_max_left a b
    _ ≤ l.foldl max (max a b) := ih (max a b)

lemma foldl_max_ge_mem (l : List α) : ∀ a x, x ∈ l → x ≤ l.foldl max a := by
  induction l with
  | nil => intro a x hx; cases hx
  | cons b l ih =>
    intro a x hx
    rcases List.mem_cons.mp hx with hb | hl
    · rw [hb]
      calc b ≤ max a b := le_max_right a b
      _ ≤ l.foldl max (max a b) := foldl_max_ge_init l (max a b)
      _ = (b :: l).foldl max a := rfl
    · exact ih (max a b) x hl

lemma foldl_max_mem (l : List α) : ∀ a, l.foldl max a = a ∨ l.foldl max a ∈ l := by
  induction l with
  | nil => intro a; exact Or.inl rfl
  | cons b l ih =>
    intro a
    rcases ih (max a b) with he | hm
    · rcases max_choice a b with hab | hab
      · exact Or.inl (by rw [List.foldl_cons, he, hab])
      · exact Or.inr (by rw [List.foldl_cons, he, hab]; exact List.mem_cons_self b l)
    · exact Or.inr (List.mem_cons_of_mem b hm)

lemma foldl_min_all_eq (l : List α) : ∀ a, (∀ x ∈ l, x = a) → l.foldl min a = a := by
  induction l with
  | nil => intro a _; rfl
  | cons b l ih =>
    intro a h
    have hb : b = a := h b (List.mem_cons_self b l)
    rw [List.foldl_cons, hb, min_self]
    exact ih a (fun x hx => h x (List.mem_cons_of_mem b hx))

lemma foldl_max_all_eq (l : List α) : ∀ a, (∀ x ∈ l, x = a) → l.foldl max a = a := by
  induction l with
  | nil => intro a _; rfl
  | cons b l ih =>
    intro a h
    have hb : b = a := h b (List.mem_cons_self b l)
    rw [List.foldl_cons, hb, max_self]
    exact ih a (fun x hx => h x (List.mem_cons_of_mem b hx))

end MinMaxFold

lemma find?_snd_eq {α β : Type} [DecidableEq α] (l : List (β × α)) (v : α)
    (hv : v ∈ l.map Prod.snd) :
    ∃ pr, l.find? (fun pr => decide (pr.2 = v)) = some pr ∧ pr.2 = v := by
  obtain ⟨pr0, hpr0, hsnd⟩ := List.mem_map.mp hv
  have hsome : (l.find? (fun pr => decide (pr.2 = v))).isSome = true := by
    rw [List.find?_isSome]
    exact ⟨pr0, hpr0, decide_eq_true hsnd⟩
  obtain ⟨pr, hpr⟩ := Option.isSome_iff_exists.mp hsome
  have hp := List.find?_some (p := fun pr : β × α => decide (pr.2 = v)) hpr
  exact ⟨pr, hpr, of_decide_eq_true hp⟩

/-! ### Claim theorems -/

/-- C4: For every row `d` and column `j` with `0 ≤ d, j < kMaxN`, the
precomputed basis table satisfies `B[d][j] = j!/(j−d)!` (the falling
factorial `j·(j−1)·…·(j−d+1)`) when `j ≥ d`, and `B[d][j] = 0` when
`j < d`.  The table is a constant of the development (built once, never
mutated). -/
theorem base_coefficients_entry_spec (d j : ℕ) (hd : d < kMaxN) (hj : j < kMaxN) :
    (d ≤ j → base_coefficients_ K d j =
      ((Nat.factorial j / Nat.factorial (j - d) : ℕ) : K)) ∧
    (j < d → base_coefficients_ K d j = 0) := by
  constructor
  · intro hdj
    simp only [base_coefficients_, computeBaseCoefficients]
    rw [if_pos ⟨hd, hj⟩, if_pos hdj, Nat.descFactorial_eq_div hdj]
  · intro hjd
    simp only [base_coefficients_, computeBaseCoefficients]
    rw [if_pos ⟨hd, hj⟩, if_neg (by omega)]

/-- Witness for C4 at `d = 2`, `j = 5`: `B[2][5] = 5!/3! = 20`. -/
theorem base_coefficients_entry_spec_witness :
    2 < kMaxN ∧ 5 < kMaxN ∧
      base_coefficients_ ℚ 2 5 = ((Nat.factorial 5 / Nat.factorial (5 - 2) : ℕ) : ℚ) :=
  ⟨by decide, by decide,
    (base_coefficients_entry_spec (K := ℚ) 2 5 (by decide) (by decide)).1 (by decide)⟩

/-- C7: For every polynomial of order `N`, every time `t` and every
derivative index `d ≥ N`, the scalar `evaluate(t, d)` returns exactly `0`
(defined behavior, not an error). -/
theorem evaluate_zero_of_high_derivative (p : Polynomial K) (t : K) (d : ℕ)
    (h : p.N_ ≤ d) : p.evaluate t d = 0 := by
  rw [Polynomial.evaluate, if_pos h]

/-- Witness for C7: a 2-coefficient polynomial evaluated at derivative 3. -/
theorem evaluate_zero_of_high_derivative_witness :
    (2 : ℕ) ≤ 3 ∧ (⟨2, [5, 7]⟩ : Polynomial ℚ).evaluate 4 3 = 0 :=
  ⟨by decide, evaluate_zero_of_high_derivative (K := ℚ) ⟨2, [5, 7]⟩ 4 3 (by decide)⟩

/-- C9: The coefficient sequence always has length `N`: `Polynomial(N)`
creates `N` zero coefficients, `Polynomial(N, coeffs)` and
`setCoefficients(coeffs)` fail when the length of `coeffs` differs from `N`
and otherwise store a length-`N` sequence, and `N` never changes (the only
mutator, `setCoefficients`, keeps `N_`). -/
theorem length_invariant (N : ℕ) (coeffs cs : List K) (p : Polynomial K) :
    ((Polynomial.mkZero K N).N_ = N ∧
      (Polynomial.mkZero K N).coefficients_ = List.replicate N 0) ∧
    (∀ q : Polynomial K, Polynomial.mkCoeffs N coeffs = some q →
      q.N_ = N ∧ q.coefficients_.length = N) ∧
    (coeffs.length ≠ N → Polynomial.mkCoeffs N coeffs = (none : Option (Polynomial K))) ∧
    (∀ q : Polynomial K, p.setCoefficients cs = some q →
      q.N_ = p.N_ ∧ q.coefficients_.length = p.N_) ∧
    (cs.length ≠ p.N_ → p.setCoefficients cs = none) := by
  refine ⟨⟨rfl, rfl⟩, ?_, ?_, ?_, ?_⟩
  · intro q hq
    rw [Polynomial.mkCoeffs] at hq
    split at hq
    · cases hq
      exact ⟨rfl, by assumption⟩
    · cases hq
  · intro hne
    rw [Polynomial.mkCoeffs, if_neg hne]
  · intro q hq
    rw [Polynomial.setCoefficients] at hq
    split at hq
    · cases hq
      exact ⟨rfl, by assumption⟩
    · cases hq
  · intro hne
    rw [Polynomial.setCoefficients, if_neg hne]

/-- Witness for C9: concrete constructions at `N = 2` and `N = 3`. -/
theorem length_invariant_witness :
    ((Polynomial.mkZero ℚ 3).N_ = 3 ∧
      (Polynomial.mkZero ℚ 3).coefficients_ = List.replicate 3 0) ∧
    ((⟨2, [1, 2]⟩ : Polynomial ℚ).N_ = 2 ∧
      (⟨2, [1, 2]⟩ : Polynomial ℚ).coefficients_.length = 2) ∧
    Polynomial.mkCoeffs 3 [(1 : ℚ)] = none ∧
    (⟨2, [1, 2]⟩ : Polynomial ℚ).setCoefficients [9] = none :=
  ⟨(length_invariant 3 [1] [9] ⟨2, [1, 2]⟩).1,
    (length_invariant 2 [1, 2] [9] ⟨2, [1, 2]⟩).2.1 ⟨2, [1, 2]⟩ rfl,
    (length_invariant 3 [1] [9] ⟨2, [1, 2]⟩).2.2.1 (by decide),
    (length_invariant 3 [1] [9] ⟨2, [1, 2]⟩).2.2.2.2 (by decide)⟩

/-- C10: Every query operation — `getCoefficients`, both `evaluate` forms,
`computeRoots`, `findMinMax`, `N()` and the equality operators — leaves the
polynomial's order and stored coefficients unchanged (their state-passing
forms return the input object(s) untouched). -/
theorem const_queries_frame (p q : Polynomial K) (d M : ℕ) (t t_1 t_2 tol : K)
    (order : ℤ) (roots : List (K × K)) (rootSolver : List K → List (K × K)) :
    (p.getCoefficientsRun d).2 = p ∧
    (p.evaluateRun t d).2 = p ∧
    (p.evaluateVecRun t M).2 = p ∧
    (Polynomial.computeRootsRun rootSolver p).2 = p ∧
    (p.findMinMaxRun t_1 t_2 order roots tol).2 = p ∧
    p.NRun.2 = p ∧
    (p.beqRun q).2 = (p, q) ∧
    (p.bneRun q).2 = (p, q) :=
  ⟨rfl, rfl, rfl, rfl, rfl, rfl, rfl, rfl⟩

/-- C1: For every (supported, `N ≤ kMaxN`) polynomial of order `N` with
coefficients `c_0 .. c_{N-1}` and every derivative index `0 ≤ d < N`, the
scalar `evaluate(t, d)` returns the value of the `d`-th derivative at `t`:
the sum over `j = d .. N-1` of `c_j * (j!/(j−d)!) * t^(j−d)`, exactly. -/
theorem evaluate_eq_derivative_sum (p : Polynomial K) (t : K) (d : ℕ)
    (hN : p.N_ ≤ kMaxN) (hd : d < p.N_) :
    p.evaluate t d =
      ∑ j ∈ Finset.Icc d (p.N_ - 1),
        p.coefficients_.getD j 0 *
          ((Nat.factorial j / Nat.factorial (j - d) : ℕ) : K) * t ^ (j - d) := by
  rw [Polynomial.evaluate, if_neg (by omega)]
  rw [horner_foldl_eq_sum
    (fun j => base_coefficients_ K d j * p.coefficients_.getD j 0) t d (p.N_ - 1)
    (by omega)]
  refine Finset.sum_congr rfl (fun j hj => ?_)
  obtain ⟨hdj, hjm⟩ := Finset.mem_Icc.mp hj
  simp only [base_coefficients_, computeBaseCoefficients]
  rw [if_pos ⟨by omega, by omega⟩, if_pos hdj, Nat.descFactorial_eq_div hdj]
  ring

/-- Witness for C1: `p(t) = 1 + 2t + 3t²`, first derivative at `t = 2`
equals `2 + 6·2 = 14`. -/
theorem evaluate_eq_derivative_sum_witness :
    (3 : ℕ) ≤ kMaxN ∧ 1 < 3 ∧
      (⟨3, [1, 2, 3]⟩ : Polynomial ℚ).evaluate 2 1 =
        ∑ j ∈ Finset.Icc 1 2,
          [(1 : ℚ), 2, 3].getD j 0 *
            ((Nat.factorial j / Nat.factorial (j - 1) : ℕ) : ℚ) * 2 ^ (j - 1) :=
  ⟨by decide, by decide,
    evaluate_eq_derivative_sum (K := ℚ) ⟨3, [1, 2, 3]⟩ 2 1 (by decide) (by decide)⟩

/-- C5: For every polynomial of order `N`, time `t` and slot count `M`:
when `M ≤ N`, the vector form `evaluate(t, result)` fills a length-`M`
result whose slot `i` equals the scalar `evaluate(t, i)` for every
`i < M`; when `M > N` it fails. -/
theorem evaluateVec_agrees_scalar (p : Polynomial K) (t : K) (M : ℕ) :
    (M ≤ p.N_ → ∃ l, p.evaluateVec t M = some l ∧ l.length = M ∧
      ∀ i, i < M → l.getD i 0 = p.evaluate t i) ∧
    (p.N_ < M → p.evaluateVec t M = none) := by
  constructor
  · intro hM
    rw [Polynomial.evaluateVec, if_neg (by omega)]
    refine ⟨_, rfl, by simp, ?_⟩
    intro i hi
    rw [List.getD_eq_getElem?_getD, List.getElem?_map,
      List.getElem?_range (by omega), Option.map_some', Option.getD_some,
      Polynomial.evaluate, if_neg (by omega)]
  · intro hM
    rw [Polynomial.evaluateVec, if_pos hM]

/-- Witness for C5: order-3 polynomial, all three slots at `t = 2`, and the
failure case with four slots requested from an order-1 polynomial. -/
theorem evaluateVec_agrees_scalar_witness :
    (∃ l, (⟨3, [1, 2, 3]⟩ : Polynomial ℚ).evaluateVec 2 3 = some l ∧
      l.length = 3 ∧
      ∀ i, i < 3 → l.getD i 0 = (⟨3, [1, 2, 3]⟩ : Polynomial ℚ).evaluate 2 i) ∧
    (⟨1, [5]⟩ : Polynomial ℚ).evaluateVec 2 4 = none :=
  ⟨(evaluateVec_agrees_scalar (K := ℚ) ⟨3, [1, 2, 3]⟩ 2 3).1 (by decide),
    (evaluateVec_agrees_scalar (K := ℚ) ⟨1, [5]⟩ 2 4).2 (by decide)⟩

/-- C2: For every polynomial of order `N` and `0 ≤ d ≤ N`,
`getCoefficients(d)` returns a length-`N` sequence: the stored coefficients
unchanged for `d = 0`, and for `d > 0` entry `i` equals
`coefficients[i+d] * B[d][i+d]` for `i < N−d` and `0` for `i ≥ N−d` (so
`d = N` yields the all-zero sequence); it fails when `d > N`. -/
theorem getCoefficients_spec (p : Polynomial K) (d : ℕ)
    (hlen : p.coefficients_.length = p.N_) :
    (p.getCoefficients 0 = some p.coefficients_) ∧
    (0 < d → d ≤ p.N_ → ∃ l, p.getCoefficients d = some l ∧ l.length = p.N_ ∧
      ∀ i, i < p.N_ → l.getD i 0 =
        if i < p.N_ - d then
          p.coefficients_.getD (i + d) 0 * base_coefficients_ K d (i + d)
        else 0) ∧
    (p.N_ < d → p.getCoefficients d = none) := by
  refine ⟨?_, ?_, ?_⟩
  · rw [Polynomial.getCoefficients, if_pos (Nat.zero_le _), if_pos rfl]
  · intro hd0 hdN
    rw [Polynomial.getCoefficients, if_pos hdN, if_neg (by omega)]
    have hlen1 : (List.zipWith (· * ·) (p.coefficients_.drop d)
        ((List.range' d (p.N_ - d)).map
          (fun j => base_coefficients_ K d j))).length = p.N_ - d := by
      rw [List.length_zipWith, List.length_drop, List.length_map,
        List.length_range', hlen]
      omega
    refine ⟨_, rfl, ?_, ?_⟩
    · rw [List.length_append, hlen1, List.length_replicate]
      omega
    · intro i hi
      rw [List.getD_eq_getElem?_getD, List.getElem?_append, hlen1]
      by_cases hcase : i < p.N_ - d
      · rw [if_pos hcase, if_pos hcase, List.getElem?_zipWith, List.getElem?_drop,
          List.getElem?_map, List.getElem?_range' _ _ (by omega : i < p.N_ - d)]
        rw [show d + 1 * i = i + d from by omega, show d + i = i + d from by omega]
        rw [List.getElem?_eq_getElem (show i + d < p.coefficients_.length from by omega),
          Option.map_some']
        simp [List.getD_eq_getElem?_getD,
          List.getElem?_eq_getElem (show i + d < p.coefficients_.length from by omega)]
      · rw [if_neg hcase, if_neg hcase, List.getElem?_replicate,
          if_pos (show i - (p.N_ - d) < p.N_ - (p.N_ - d) from by omega)]
        rfl
  · intro hNd
    rw [Polynomial.getCoefficients, if_neg (by omega)]

/-- Witness for C2: `p(t) = 1 + 2t + 3t² + 4t³`, second derivative
coefficients `[6, 24, 0, 0]`, and the failing call at `d = 5`. -/
theorem getCoefficients_spec_witness :
    [(1 : ℚ), 2, 3, 4].length = 4 ∧
    (⟨4, [1, 2, 3, 4]⟩ : Polynomial ℚ).getCoefficients 0 = some [1, 2, 3, 4] ∧
    (∃ l, (⟨4, [1, 2, 3, 4]⟩ : Polynomial ℚ).getCoefficients 2 = some l ∧
      l.length = 4 ∧
      ∀ i, i < 4 → l.getD i 0 =
        if i < 4 - 2 then
          [(1 : ℚ), 2, 3, 4].getD (i + 2) 0 * base_coefficients_ ℚ 2 (i + 2)
        else 0) ∧
    (⟨4, [1, 2, 3, 4]⟩ : Polynomial ℚ).getCoefficients 5 = none :=
  ⟨by decide,
    (getCoefficients_spec (K := ℚ) ⟨4, [1, 2, 3, 4]⟩ 2 (by decide)).1,
    (getCoefficients_spec (K := ℚ) ⟨4, [1, 2, 3, 4]⟩ 2 (by decide)).2.1
      (by decide) (by decide),
    (getCoefficients_spec (K := ℚ) ⟨4, [1, 2, 3, 4]⟩ 5 (by decide)).2.2
      (by decide)⟩

/-- Length is preserved by the `t_power`-accumulating fill loop of
`baseCoeffsWithTime`. -/
lemma baseCoeffsWithTime_foldl_length (d : ℕ) (t : K) :
    ∀ (b a : ℕ) (l : List K) (pw : K),
      (((List.range' a b).foldl
        (fun (st : List K × K) j =>
          (st.1.set j (base_coefficients_ K d j * st.2), st.2 * t))
        (l, pw)).1).length = l.length := by
  intro b
  induction b with
  | zero =>
    intro a l pw
    simp
  | succ b ih =>
    intro a l pw
    rw [List.range'_succ, List.foldl_cons, ih]
    exact List.length_set l a _

/-- Entries produced by the `t_power`-accumulating fill loop of
`baseCoeffsWithTime`: slot `j ∈ [a, a+b)` holds
`B[d][j] * pw * t^(j-a)`, other slots are untouched. -/
lemma baseCoeffsWithTime_foldl_get (d : ℕ) (t : K) :
    ∀ (b a : ℕ) (l : List K) (pw : K), a + b ≤ l.length → ∀ j : ℕ,
      ((((List.range' a b).foldl
        (fun (st : List K × K) j =>
          (st.1.set j (base_coefficients_ K d j * st.2), st.2 * t))
        (l, pw)).1)[j]?) =
      if a ≤ j ∧ j < a + b then
        some (base_coefficients_ K d j * (pw * t ^ (j - a)))
      else l[j]? := by
  intro b
  induction b with
  | zero =>
    intro a l pw _ j
    rw [if_neg (by omega)]
    simp
  | succ b ih =>
    intro a l pw hlen j
    rw [List.range'_succ, List.foldl_cons,
      ih (a + 1) (l.set a (base_coefficients_ K d a * pw)) (pw * t)
        (by rw [List.length_set]; omega) j]
    by_cases h1 : a + 1 ≤ j ∧ j < a + 1 + b
    · rw [if_pos h1, if_pos (by omega)]
      have hpow : pw * t * t ^ (j - (a + 1)) = pw * t ^ (j - a) := by
        rw [mul_assoc, mul_comm t _, ← pow_succ]
        congr 2
        omega
      rw [hpow]
    · rw [if_neg h1, List.getElem?_set]
      by_cases h2 : a = j
      · rw [if_pos h2, if_pos (show a < l.length from by omega),
          if_pos (show a ≤ j ∧ j < a + (b + 1) from by omega), ← h2,
          Nat.sub_self, pow_zero, mul_one]
      · rw [if_neg h2, if_neg (by omega)]

/-- C8: For every supported `N` (`N ≤ kMaxN`), every `0 ≤ d < N` and every
time `t`: when `|t|` is below machine epsilon, `baseCoeffsWithTime(N, d, t)`
returns a length-`N` sequence whose only nonzero entry is `B[d][d]` at
index `d`; otherwise entry `j` equals `B[d][j] * t^(j−d)` for `j ≥ d` and
`0` for `j < d`. -/
theorem baseCoeffsWithTime_spec (N d : ℕ) (t : K) (hN : N ≤ kMaxN)
    (hd : d < N) :
    ∃ l, baseCoeffsWithTime K N d t = some l ∧ l.length = N ∧
      base_coefficients_ K d d ≠ 0 ∧
      (|t| < doubleEpsilon K →
        ∀ j, j < N → l.getD j 0 = if j = d then base_coefficients_ K d d else 0) ∧
      (doubleEpsilon K ≤ |t| →
        ∀ j, j < N → l.getD j 0 =
          if d ≤ j then base_coefficients_ K d j * t ^ (j - d) else 0) := by
  have hBdd : base_coefficients_ K d d = (Nat.factorial d : K) := by
    simp only [base_coefficients_, computeBaseCoefficients]
    rw [if_pos ⟨by omega, by omega⟩, if_pos le_rfl, Nat.descFactorial_self]
  have hBne : base_coefficients_ K d d ≠ 0 := by
    rw [hBdd]
    exact ne_of_gt (by exact_mod_cast Nat.factorial_pos d)
  have hlen0 : ((List.replicate N (0 : K)).set d
      (base_coefficients_ K d d)).length = N := by
    rw [List.length_set, List.length_replicate]
  rw [baseCoeffsWithTime]
  rw [if_pos hd]
  by_cases ht : |t| < doubleEpsilon K
  · rw [if_pos ht]
    refine ⟨_, rfl, hlen0, hBne, fun _ j hj => ?_,
      fun hge => absurd ht (not_lt.mpr hge)⟩
    rw [List.getD_eq_getElem?_getD, List.getElem?_set, List.getElem?_replicate]
    by_cases hjd : d = j
    · rw [if_pos hjd, if_pos (by rw [List.length_replicate]; omega),
        if_pos hjd.symm]
      rfl
    · rw [if_neg hjd, if_pos hj, if_neg (fun h => hjd h.symm)]
      rfl
  · rw [if_neg ht]
    refine ⟨_, rfl, ?_, hBne, fun hlt => absurd hlt ht, fun _ j hj => ?_⟩
    · rw [baseCoeffsWithTime_foldl_length, hlen0]
    · rw [List.getD_eq_getElem?_getD,
        baseCoeffsWithTime_foldl_get d t (N - (d + 1)) (d + 1) _ t
          (by rw [hlen0]; omega) j]
      by_cases h1 : d + 1 ≤ j ∧ j < d + 1 + (N - (d + 1))
      · rw [if_pos h1, if_pos (by omega)]
        rw [show t * t ^ (j - (d + 1)) = t ^ (j - d) from by
          rw [← pow_succ']
          congr 1
          omega]
        rfl
      · rw [if_neg h1, List.getElem?_set, List.getElem?_replicate]
        by_cases h2 : d = j
        · rw [if_pos h2, if_pos (by rw [List.length_replicate]; omega),
            if_pos (by omega), ← h2, Nat.sub_self, pow_zero, mul_one]
          rfl
        · rw [if_neg h2, if_pos hj, if_neg (by omega)]
          rfl

/-- Witness for C8: `N = 4`, `d = 1`, `t = 2` (entries `[0, 1, 4, 12]`). -/
theorem baseCoeffsWithTime_spec_witness :
    (4 : ℕ) ≤ kMaxN ∧ 1 < 4 ∧
      (∃ l, baseCoeffsWithTime ℚ 4 1 2 = some l ∧ l.length = 4 ∧
        base_coefficients_ ℚ 1 1 ≠ 0 ∧
        (|(2 : ℚ)| < doubleEpsilon ℚ →
          ∀ j, j < 4 → l.getD j 0 = if j = 1 then base_coefficients_ ℚ 1 1 else 0) ∧
        (doubleEpsilon ℚ ≤ |(2 : ℚ)| →
          ∀ j, j < 4 → l.getD j 0 =
            if 1 ≤ j then base_coefficients_ ℚ 1 j * 2 ^ (j - 1) else 0)) :=
  ⟨by decide, by decide, baseCoeffsWithTime_spec (K := ℚ) 4 1 2 (by decide) (by decide)⟩

/-- The minimum selection of `findMinMax`: the folded minimum is an attained
value, is a lower bound, and the first pair attaining it supplies the
reported time. -/
lemma find?_min_spec {β α : Type} [LinearOrder α] [DecidableEq α]
    (prs : List (β × α)) (e : α) (t0 : β) (he : e ∈ prs.map Prod.snd) :
    (prs.map Prod.snd).foldl min e ∈ prs.map Prod.snd ∧
    (∀ v ∈ prs.map Prod.snd, (prs.map Prod.snd).foldl min e ≤ v) ∧
    prs.find? (fun pr => decide (pr.2 = (prs.map Prod.snd).foldl min e)) =
      some
        (((prs.find?
            (fun pr => decide (pr.2 = (prs.map Prod.snd).foldl min e))).getD
          (t0, (prs.map Prod.snd).foldl min e)).1,
        (prs.map Prod.snd).foldl min e) := by
  have hmem : (prs.map Prod.snd).foldl min e ∈ prs.map Prod.snd := by
    rcases foldl_min_mem (prs.map Prod.snd) e with h | h
    · rw [h]; exact he
    · exact h
  refine ⟨hmem, fun v hv => foldl_min_le_mem _ _ v hv, ?_⟩
  obtain ⟨pr, hfind, hsnd⟩ := find?_snd_eq prs _ hmem
  rw [hfind, Option.getD_some, ← hsnd]

/-- The maximum selection of `findMinMax`, dual to `find?_min_spec`. -/
lemma find?_max_spec {β α : Type} [LinearOrder α] [DecidableEq α]
    (prs : List (β × α)) (e : α) (t0 : β) (he : e ∈ prs.map Prod.snd) :
    (prs.map Prod.snd).foldl max e ∈ prs.map Prod.snd ∧
    (∀ v ∈ prs.map Prod.snd, v ≤ (prs.map Prod.snd).foldl max e) ∧
    prs.find? (fun pr => decide (pr.2 = (prs.map Prod.snd).foldl max e)) =
      some
        (((prs.find?
            (fun pr => decide (pr.2 = (prs.map Prod.snd).foldl max e))).getD
          (t0, (prs.map Prod.snd).foldl max e)).1,
        (prs.map Prod.snd).foldl max e) := by
  have hmem : (prs.map Prod.snd).foldl max e ∈ prs.map Prod.snd := by
    rcases foldl_max_mem (prs.map Prod.snd) e with h | h
    · rw [h]; exact he
    · exact h
  refine ⟨hmem, fun v hv => foldl_max_ge_mem _ _ v hv, ?_⟩
  obtain ⟨pr, hfind, hsnd⟩ := find?_snd_eq prs _ hmem
  rw [hfind, Option.getD_some, ← hsnd]

/-- C3: For `t_1 ≤ t_2` and `order ≥ 0`, `findMinMax` returns min and max
equal to the smallest and largest values of the `order`-th derivative over
the candidate set {t_1, t_2} ∪ {admissible real parts of the supplied
roots of the next-higher derivative}, with `t_min`/`t_max` the
corresponding candidate times, first occurrence winning on ties (the
`find?` clauses); in particular on the cubic `t³` over `[−1, 1]` it
returns min `−1` at `t = −1` and max `1` at `t = 1`, never the inflection
at `t = 0`. -/
theorem findMinMax_candidates_extremal (p : Polynomial K) (t_1 t_2 : K)
    (order : ℤ) (roots : List (K × K)) (tol : K)
    (h12 : t_1 ≤ t_2) (hord : 0 ≤ order) :
    (∀ pairs : List (K × K),
      pairs = (t_1 :: t_2 :: ((roots.filter
          (fun r => decide (|r.2| ≤ tol ∧ t_1 ≤ r.1 ∧ r.1 ≤ t_2))).map Prod.fst)).map
        (fun s => (s, p.evaluate s order.toNat)) →
      ∃ tmin tmax mn mx,
        p.findMinMax t_1 t_2 order roots tol = some (tmin, tmax, mn, mx) ∧
        mn ∈ pairs.map Prod.snd ∧
        (∀ v ∈ pairs.map Prod.snd, mn ≤ v) ∧
        pairs.find? (fun pr => decide (pr.2 = mn)) = some (tmin, mn) ∧
        mx ∈ pairs.map Prod.snd ∧
        (∀ v ∈ pairs.map Prod.snd, v ≤ mx) ∧
        pairs.find? (fun pr => decide (pr.2 = mx)) = some (tmax, mx)) ∧
    Polynomial.findMinMax (K := ℚ) ⟨4, [0, 0, 0, 1]⟩ (-1) 1 0 [(0, 0), (0, 0)] 0 =
      some (-1, 1, -1, 1) := by
  constructor
  · intro pairs hpairs
    rw [Polynomial.findMinMax,
      if_neg (not_or.mpr ⟨not_lt.mpr h12, not_lt.mpr hord⟩)]
    subst hpairs
    have hhead : p.evaluate t_1 order.toNat ∈
        ((t_1 :: t_2 :: ((roots.filter
            (fun r => decide (|r.2| ≤ tol ∧ t_1 ≤ r.1 ∧ r.1 ≤ t_2))).map Prod.fst)).map
          (fun s => (s, p.evaluate s order.toNat))).map Prod.snd := by
      simp only [List.map_cons]
      exact List.mem_cons_self _ _
    obtain ⟨h1, h2, h3⟩ := find?_min_spec _ _ t_1 hhead
    obtain ⟨h4, h5, h6⟩ := find?_max_spec _ _ t_1 hhead
    exact ⟨_, _, _, _, rfl, h1, h2, h3, h4, h5, h6⟩
  · norm_num [Polynomial.findMinMax, Polynomial.evaluate, base_coefficients_,
      computeBaseCoefficients, List.range', List.filter, List.find?, kMaxN,
      Nat.descFactorial, min_def, max_def]

/-- Witness for C3: the cubic `t³` over `[−1, 1]` with the (repeated) root
`0` of its derivative supplied. -/
theorem findMinMax_candidates_extremal_witness :
    ((-1 : ℚ) ≤ 1) ∧ ((0 : ℤ) ≤ 0) ∧
      Polynomial.findMinMax (K := ℚ) ⟨4, [0, 0, 0, 1]⟩ (-1) 1 0 [(0, 0), (0, 0)] 0 =
        some (-1, 1, -1, 1) :=
  ⟨by decide, by decide,
    (findMinMax_candidates_extremal (K := ℚ) ⟨4, [0, 0, 0, 1]⟩ (-1) 1 0
      [(0, 0), (0, 0)] 0 (by decide) (by decide)).2⟩

/-- C6: `findMinMax` returns a structured failure (`none`) if and only if
`t_1 > t_2` or the requested order is negative; for `t_1 ≤ t_2` and
`order ≥ 0` it succeeds, and when additionally `order ≥ N` it returns the
trivial constant-zero answer (value 0 attained first at `t_1`). -/
theorem findMinMax_failure_iff (p : Polynomial K) (t_1 t_2 : K) (order : ℤ)
    (roots : List (K × K)) (tol : K) :
    (p.findMinMax t_1 t_2 order roots tol = none ↔ (t_2 < t_1 ∨ order < 0)) ∧
    (t_1 ≤ t_2 → 0 ≤ order → p.N_ ≤ order.toNat →
      p.findMinMax t_1 t_2 order roots tol = some (t_1, t_1, 0, 0)) := by
  constructor
  · by_cases hc : t_2 < t_1 ∨ order < 0
    · rw [Polynomial.findMinMax, if_pos hc]
      simp [hc]
    · rw [Polynomial.findMinMax, if_neg hc]
      simp [hc]
  · intro h12 hord hN
    rw [Polynomial.findMinMax,
      if_neg (not_or.mpr ⟨not_lt.mpr h12, not_lt.mpr hord⟩)]
    have heval : ∀ s : K, p.evaluate s order.toNat = 0 := fun s => by
      rw [Polynomial.evaluate, if_pos hN]
    simp only [heval]
    have hall : ∀ x ∈ ((t_1 :: t_2 :: ((roots.filter
        (fun r => decide (|r.2| ≤ tol ∧ t_1 ≤ r.1 ∧ r.1 ≤ t_2))).map Prod.fst)).map
          (fun s => (s, (0 : K)))).map Prod.snd, x = 0 := by
      intro x hx
      rw [List.map_map] at hx
      obtain ⟨a, _, hxa⟩ := List.mem_map.mp hx
      rw [← hxa]
      rfl
    rw [foldl_min_all_eq _ 0 hall, foldl_max_all_eq _ 0 hall]
    simp only [List.map_cons]
    rw [List.find?_cons_of_pos _ (by simp), Option.getD_some]

/-- Witness for C6: order-2 polynomial queried at derivative order 3 over
`[0, 1]`: a trivial constant-zero success, and the failure
characterization at the same inputs. -/
theorem findMinMax_failure_iff_witness :
    (Polynomial.findMinMax (K := ℚ) ⟨2, [1, 2]⟩ 0 1 3 [] 0 = none ↔
      ((1 : ℚ) < 0 ∨ (3 : ℤ) < 0)) ∧
    Polynomial.findMinMax (K := ℚ) ⟨2, [1, 2]⟩ 0 1 3 [] 0 = some (0, 0, 0, 0) :=
  ⟨(findMinMax_failure_iff (K := ℚ) ⟨2, [1, 2]⟩ 0 1 3 [] 0).1,
    (findMinMax_failure_iff (K := ℚ) ⟨2, [1, 2]⟩ 0 1 3 [] 0).2
      (by decide) (by decide) (by decide)⟩

end MavTrajectoryGeneration
